import Mathlib

/-!
Verification of the stockvision broker-ledger ingestion and aggregation
pipeline (`src/hooks/useBrokerageData.ts` and its richer variant).

Modelling conventions for the shallow embedding:
* JavaScript strings are `List Char`; the helper functions below reproduce
  the exact JS string operations used by the source (`split`, `trim`,
  `includes`, `replace` with a string pattern, the `/^"|"$/g` quote strip).
* JavaScript numbers are modelled as exact rationals, represented by
  unnormalized integer fractions (`Frac`, interpreted into `ℚ` by
  `Frac.toRat`) so that every operation the source performs is kernel
  computable; `NaN` is modelled as `none` in `Option Frac` and propagates
  through arithmetic the way `NaN` does in JS (any operation touching
  `NaN` yields `NaN`).  Double rounding and `Infinity` (reachable only via
  `parseFloat "Infinity"`, which no input of interest contains) are not
  modelled.
* Integer-valued volumes flow through `parseInt(x) || 0` in the source and
  are modelled as `Int`.
* The stable Array.prototype.sort of JS is modelled with Mathlib's stable
  `List.insertionSort`.
-/

/-- Whitespace characters recognised by JS `trim` (the subset relevant to
the repository's ASCII/Big5 inputs). -/
def isWsChar (c : Char) : Bool :=
  c = ' ' || c = '\t' || c = '\n' || c = '\r' || c = '\x0b' || c = '\x0c'

/-- JS `String.prototype.trim`: drop whitespace from both ends. -/
def jsTrim (l : List Char) : List Char :=
  ((l.dropWhile isWsChar).reverse.dropWhile isWsChar).reverse

/-- JS `String.prototype.split(sep)` for a single-character separator. -/
def splitOnCharJS (sep : Char) : List Char → List (List Char)
  | [] => [[]]
  | c :: rest =>
    if c = sep then [] :: splitOnCharJS sep rest
    else
      match splitOnCharJS sep rest with
      | [] => [[c]]
      | s :: ss => (c :: s) :: ss

/-- JS `text.split(/\r?\n/)`: a line break is `\n` optionally preceded by
`\r`; a lone `\r` does not break a line. -/
def splitLinesJS : List Char → List (List Char)
  | [] => [[]]
  | '\r' :: '\n' :: rest => [] :: splitLinesJS rest
  | '\n' :: rest => [] :: splitLinesJS rest
  | c :: rest =>
    match splitLinesJS rest with
    | [] => [[c]]
    | s :: ss => (c :: s) :: ss

/-- The line list both parsers start from:
`text.split(/\r?\n/).filter(line => line.trim() !== '')`. -/
def jsLines (text : List Char) : List (List Char) :=
  (splitLinesJS text).filter (fun l => !(jsTrim l).isEmpty)

/-- Boolean test that `pat` is a prefix of `l` (used by `containsSeq` and
by the model of JS `replace`). -/
def startsWithSeq : List Char → List Char → Bool
  | [], _ => true
  | _ :: _, [] => false
  | p :: ps, c :: cs => p = c && startsWithSeq ps cs

/-- JS `String.prototype.includes`: `pat` occurs contiguously in `l`. -/
def containsSeq (pat : List Char) : List Char → Bool
  | [] => startsWithSeq pat []
  | c :: cs => startsWithSeq pat (c :: cs) || containsSeq pat cs

/-- JS `String.prototype.replace(pat, '')` with a string pattern: removes
the first (leftmost) occurrence of `pat`, and returns the string unchanged
when `pat` does not occur. -/
def removeFirstOcc (pat : List Char) : List Char → List Char
  | [] => []
  | c :: rest =>
    if startsWithSeq pat (c :: rest) then (c :: rest).drop pat.length
    else c :: removeFirstOcc pat rest

/-- Decimal digit value of a character, if any. -/
def digitVal (c : Char) : Option Nat :=
  if '0' ≤ c ∧ c ≤ '9' then some (c.toNat - '0'.toNat) else none

/-- Hexadecimal digit value of a character, if any. -/
def hexVal (c : Char) : Option Nat :=
  if '0' ≤ c ∧ c ≤ '9' then some (c.toNat - '0'.toNat)
  else if 'a' ≤ c ∧ c ≤ 'f' then some (c.toNat - 'a'.toNat + 10)
  else if 'A' ≤ c ∧ c ≤ 'F' then some (c.toNat - 'A'.toNat + 10)
  else none

/-- Split off the longest leading run of decimal digits. -/
def spanDec : List Char → List Nat × List Char
  | [] => ([], [])
  | c :: cs =>
    match digitVal c with
    | some d => let (ds, r) := spanDec cs; (d :: ds, r)
    | none => ([], c :: cs)

/-- Split off the longest leading run of hexadecimal digits. -/
def spanHex : List Char → List Nat × List Char
  | [] => ([], [])
  | c :: cs =>
    match hexVal c with
    | some d => let (ds, r) := spanHex cs; (d :: ds, r)
    | none => ([], c :: cs)

/-- Value of a digit sequence in the given base. -/
def natOfDigits (base : Nat) (ds : List Nat) : Nat :=
  ds.foldl (fun a d => a * base + d) 0

/-- JS `parseInt(s)` (no radix argument): skip whitespace, optional sign,
then either a `0x`/`0X` hexadecimal run or a decimal run; `none` models
`NaN` (no digits found). -/
def parseIntJS (s : List Char) : Option Int :=
  let t := s.dropWhile isWsChar
  let sg : Int := match t with | '-' :: _ => -1 | _ => 1
  let t1 := match t with | '-' :: r => r | '+' :: r => r | _ => t
  match t1 with
  | '0' :: 'x' :: r =>
    let (ds, _) := spanHex r
    if ds.isEmpty then none else some (sg * (natOfDigits 16 ds : Nat))
  | '0' :: 'X' :: r =>
    let (ds, _) := spanHex r
    if ds.isEmpty then none else some (sg * (natOfDigits 16 ds : Nat))
  | _ =>
    let (ds, _) := spanDec t1
    if ds.isEmpty then none else some (sg * (natOfDigits 10 ds : Nat))

/-- JS `parseInt(s) || 0`: the source's lenient integer read, `NaN`
(and `0` itself) collapsing to `0`. -/
def parseIntOr0 (s : List Char) : Int :=
  (parseIntJS s).getD 0

/-- An exact, unnormalized fraction standing for a finite JS number.  The
representation is kept unnormalized (no gcd) so that record equality on
parser and aggregator outputs is kernel computable; `Frac.toRat` gives the
numeric value. -/
structure Frac where
  num : Int
  den : Int
deriving DecidableEq, Repr

/-- Numeric value of a `Frac`. -/
def Frac.toRat (x : Frac) : ℚ := (x.num : ℚ) / (x.den : ℚ)

/-- Exact addition of two fractions. -/
def fracAdd (x y : Frac) : Frac := ⟨x.num * y.den + y.num * x.den, x.den * y.den⟩

/-- Exact subtraction of two fractions. -/
def fracSub (x y : Frac) : Frac := ⟨x.num * y.den - y.num * x.den, x.den * y.den⟩

/-- Exact multiplication of a fraction by an integer. -/
def fracMulInt (v : Int) (x : Frac) : Frac := ⟨v * x.num, x.den⟩

/-- Exact division of a fraction by an integer. -/
def fracDivInt (x : Frac) (v : Int) : Frac := ⟨x.num, x.den * v⟩

/-- The zero number. -/
def fracZero : Frac := ⟨0, 1⟩

/-- JS `parseFloat(s)`: longest valid decimal-literal prefix after leading
whitespace; `none` models `NaN` (no mantissa digits found). -/
def parseFloatJS (s : List Char) : Option Frac :=
  let t := s.dropWhile isWsChar
  let sg : Int := match t with | '-' :: _ => -1 | _ => 1
  let t1 := match t with | '-' :: r => r | '+' :: r => r | _ => t
  let (ip, r1) := spanDec t1
  let (fp, r2) :=
    match r1 with
    | '.' :: r => spanDec r
    | _ => ([], r1)
  if ip.isEmpty ∧ fp.isEmpty then none
  else
    let scale : Nat := 10 ^ fp.length
    let mantNum : Int := sg * ((natOfDigits 10 ip : Int) * scale + (natOfDigits 10 fp : Int))
    let ex : Int :=
      match r2 with
      | 'e' :: rest =>
        let es : Int := match rest with | '-' :: _ => -1 | _ => 1
        let rest1 := match rest with | '-' :: rr => rr | '+' :: rr => rr | _ => rest
        let (ed, _) := spanDec rest1
        if ed.isEmpty then 0 else es * (natOfDigits 10 ed : Nat)
      | 'E' :: rest =>
        let es : Int := match rest with | '-' :: _ => -1 | _ => 1
        let rest1 := match rest with | '-' :: rr => rr | '+' :: rr => rr | _ => rest
        let (ed, _) := spanDec rest1
        if ed.isEmpty then 0 else es * (natOfDigits 10 ed : Nat)
      | _ => 0
    if 0 ≤ ex then some ⟨mantNum * (10 ^ ex.toNat : Nat), (scale : Int)⟩
    else some ⟨mantNum, (scale : Int) * (10 ^ (-ex).toNat : Nat)⟩

/-- A parsed ledger line entry, as pushed by both parser variants. -/
structure TradeRecord where
  broker : List Char
  price : Option Frac
  buyVol : Int
  sellVol : Int
deriving DecidableEq, Repr

/-- Records contributed by one data line of the double-column layout:
a left entry from fields 1..4 when the line has at least 5 comma-separated
fields and field 1 trims non-empty, and a right entry from fields 7..10
when it has at least 11 fields and field 7 trims non-empty. -/
def dcLineRows (line : List Char) : List TradeRecord :=
  let parts := splitOnCharJS ',' line
  (if 5 ≤ parts.length then
    let broker := jsTrim (parts.getD 1 [])
    if broker.isEmpty then []
    else [⟨broker, parseFloatJS (parts.getD 2 []),
          parseIntOr0 (parts.getD 3 []), parseIntOr0 (parts.getD 4 [])⟩]
  else []) ++
  (if 11 ≤ parts.length then
    let broker := jsTrim (parts.getD 7 [])
    if broker.isEmpty then []
    else [⟨broker, parseFloatJS (parts.getD 8 []),
          parseIntOr0 (parts.getD 9 []), parseIntOr0 (parts.getD 10 [])⟩]
  else [])

/-- `parseDoubleColumnCSV`: blank-filtered lines, header (first line)
discarded, each remaining line contributing its left/right entries. -/
def parseDoubleColumnCSV (text : List Char) : List TradeRecord :=
  ((jsLines text).drop 1).flatMap dcLineRows

/-- Per-field cleanup of the OTC layout:
`p.trim().replace(/^"|"$/g, '')`, i.e. trim, then drop one leading and one
trailing quote character when present. -/
def otcField (p : List Char) : List Char :=
  let t := jsTrim p
  let t1 := match t with | '"' :: r => r | _ => t
  if t1.getLast? = some '"' then t1.dropLast else t1

/-- Records contributed by one data line of the OTC layout. -/
def otcLineRows (line : List Char) : List TradeRecord :=
  let parts := (splitOnCharJS ',' line).map otcField
  if 5 ≤ parts.length then
    let broker := parts.getD 1 []
    if broker.isEmpty then []
    else [⟨broker, parseFloatJS (parts.getD 2 []),
          parseIntOr0 (parts.getD 3 []), parseIntOr0 (parts.getD 4 [])⟩]
  else []

/-- Header pattern the OTC parser scans for (`序號,券商,價格`). -/
def otcHeaderPat : List Char := "序號,券商,價格".data

/-- Index of the first data line of the OTC layout: one past the first
line containing the header pattern, or 0 when no line contains it. -/
def otcStartIndex (lines : List (List Char)) : Nat :=
  match lines.findIdx? (fun l => containsSeq otcHeaderPat l) with
  | some i => i + 1
  | none => 0

/-- `parseOTCcsv`: blank-filtered lines, data starting after the header
line, one record per data line with at least 5 fields and a non-empty
broker field. -/
def parseOTCcsv (text : List Char) : List TradeRecord :=
  let lines := jsLines text
  (lines.drop (otcStartIndex lines)).flatMap otcLineRows

/-- NaN-propagating addition on JS numbers. -/
def jsAdd (a b : Option Frac) : Option Frac :=
  match a, b with
  | some x, some y => some (fracAdd x y)
  | _, _ => none

/-- NaN-propagating subtraction on JS numbers. -/
def jsSub (a b : Option Frac) : Option Frac :=
  match a, b with
  | some x, some y => some (fracSub x y)
  | _, _ => none

/-- NaN-propagating multiplication of an integer volume by a JS number
(in JS, `0 * NaN` is `NaN`, matching the `none` propagation here). -/
def jsMulIntF (v : Int) (p : Option Frac) : Option Frac :=
  p.map (fracMulInt v)

/-- NaN-propagating division of a JS number by an integer volume. -/
def jsDivIntF (a : Option Frac) (v : Int) : Option Frac :=
  a.map (fun x => fracDivInt x v)

/-- One accumulated entry of the broker map (interface `BrokerSummary` of
the source, with the source's field names). -/
structure BrokerSummary where
  broker : List Char
  buyVol : Int
  sellVol : Int
  buyAmt : Option Frac
  sellAmt : Option Frac
  netVol : Int
  netAmt : Option Frac
  avgBuyPrice : Option Frac
  avgSellPrice : Option Frac
deriving DecidableEq, Repr

/-- The zeroed `BrokerSummary` installed on first sight of a broker name. -/
def initSummary (br : List Char) : BrokerSummary :=
  ⟨br, 0, 0, some fracZero, some fracZero, 0, some fracZero, some fracZero, some fracZero⟩

/-- The per-record accumulation step of `processStockData`. -/
def accumRecord (b : BrokerSummary) (r : TradeRecord) : BrokerSummary :=
  { b with
    buyVol := b.buyVol + r.buyVol,
    sellVol := b.sellVol + r.sellVol,
    buyAmt := jsAdd b.buyAmt (jsMulIntF r.buyVol r.price),
    sellAmt := jsAdd b.sellAmt (jsMulIntF r.sellVol r.price) }

/-- Fold one record into the broker map.  The JS `Map` keyed by broker
name with insertion-order iteration is modelled as an association list in
insertion order: the (unique) entry with the record's broker name is
updated in place, or a fresh zeroed entry is appended on first sight. -/
def updateBrokerMap (r : TradeRecord) : List BrokerSummary → List BrokerSummary
  | [] => [accumRecord (initSummary r.broker) r]
  | b :: bs =>
    if b.broker = r.broker then accumRecord b r :: bs
    else b :: updateBrokerMap r bs

/-- The broker map after folding all records, in insertion order. -/
def foldRecords (rows : List TradeRecord) : List BrokerSummary :=
  rows.foldl (fun m r => updateBrokerMap r m) []

/-- The finalization pass of `processStockData`: derived fields computed
once after all records are folded. -/
def finalizeSummary (b : BrokerSummary) : BrokerSummary :=
  { b with
    netVol := b.buyVol - b.sellVol,
    netAmt := jsSub b.buyAmt b.sellAmt,
    avgBuyPrice := if 0 < b.buyVol then jsDivIntF b.buyAmt b.buyVol else some fracZero,
    avgSellPrice := if 0 < b.sellVol then jsDivIntF b.sellAmt b.sellVol else some fracZero }

/-- The summary sequence before sorting: map values in insertion order,
finalized. -/
def insertionOrderSummary (rows : List TradeRecord) : List BrokerSummary :=
  (foldRecords rows).map finalizeSummary

/-- The comparator of `summary.sort((a, b) => b.netVol - a.netVol)`:
`a` may precede `b` exactly when the comparator is non-positive. -/
def summaryGE (a b : BrokerSummary) : Prop := b.netVol ≤ a.netVol

instance : DecidableRel summaryGE :=
  fun a b => (inferInstance : Decidable (b.netVol ≤ a.netVol))

instance : IsTotal BrokerSummary summaryGE :=
  ⟨fun a b => le_total b.netVol a.netVol⟩

instance : IsTrans BrokerSummary summaryGE :=
  ⟨fun _ _ _ hab hbc => le_trans hbc hab⟩

/-- The aggregator's output shape. -/
structure ResultSet where
  details : List TradeRecord
  summary : List BrokerSummary
deriving DecidableEq, Repr

/-- `processStockData`: fold the records into the broker map, finalize
every entry, sort descending by `netVol` (JS `Array.prototype.sort` is
stable, modelled by the stable `List.insertionSort`), and return the raw
rows unchanged as `details`. -/
def processStockData (rawRows : List TradeRecord) : ResultSet :=
  ⟨rawRows, List.insertionSort summaryGE (insertionOrderSummary rawRows)⟩

/-- ROC-calendar date string used by the locator fallbacks:
`(parseInt(date.substring(0, 4)) - 1911)` rendered back to text (the JS
template renders `NaN` when the year digits are unparseable), followed by
the month-day substring `date.substring(4)`. -/
def rocDateOf (date : List Char) : List Char :=
  (match parseIntJS (date.take 4) with
   | some y => (toString (y - 1911)).data
   | none => "NaN".data) ++ date.drop 4

/-- The five candidate archive paths of `handleSearch`, in source order. -/
def locateCandidates (date code : List Char) : List (List Char) :=
  [date ++ "/".data ++ code ++ ".csv".data,
   date ++ "/".data ++ code ++ "_".data ++ date ++ ".csv".data,
   date ++ "/".data ++ code ++ "_".data ++ rocDateOf date ++ ".csv".data,
   code ++ "_".data ++ rocDateOf date ++ ".csv".data,
   code ++ "_".data ++ date ++ ".csv".data]

/-- The ledger locator of `handleSearch`: `zip.file(...)` probes,
abstracted over the archive's membership test `ex`, tried in the source's
nested-fallback order, first hit returned, `none` when every form misses. -/
def locateLedger (ex : List Char → Bool) (date code : List Char) : Option (List Char) :=
  let f1 := date ++ "/".data ++ code ++ ".csv".data
  if ex f1 then some f1 else
  let f2 := date ++ "/".data ++ code ++ "_".data ++ date ++ ".csv".data
  if ex f2 then some f2 else
  let roc := rocDateOf date
  let f3 := date ++ "/".data ++ code ++ "_".data ++ roc ++ ".csv".data
  if ex f3 then some f3 else
  let f4 := code ++ "_".data ++ roc ++ ".csv".data
  if ex f4 then some f4 else
  let f5 := code ++ "_".data ++ date ++ ".csv".data
  if ex f5 then some f5 else none

/-- Marker phrase whose presence selects the OTC parser variant. -/
def otcMarker : List Char := "券商買賣證券成交價量資訊".data

/-- The parse-and-retry logic of `handleFileUpload` (lines picking a
parser by the marker sniff, retrying the OTC variant when the default
parser found nothing, and raising `No valid data found in CSV` when the
final row list is empty). -/
def handleUploadParse (text : List Char) : Except String (List TradeRecord) :=
  let marker := containsSeq otcMarker text
  let rows := if marker then parseOTCcsv text else parseDoubleColumnCSV text
  let rows2 :=
    if rows.length = 0 ∧ ¬marker then
      let retryRows := parseOTCcsv text
      if 0 < retryRows.length then retryRows else rows
    else rows
  if rows2.length = 0 then Except.error "No valid data found in CSV"
  else Except.ok rows2

/-- Stock code installed by `handleFileUpload` after a successful parse:
`file.name.replace('.csv', '')`. -/
def uploadStockCode (name : List Char) : List Char :=
  removeFirstOcc ".csv".data name

/-- The guard of `handleSearch` around aggregation: zero collected
records raise the stock-not-found error, otherwise the aggregator runs. -/
def searchAggregate (stockCode : List Char) (allRows : List TradeRecord) :
    Except String ResultSet :=
  if allRows.length = 0 then
    Except.error (String.mk ("Stock ".data ++ stockCode ++ " not found in selected range".data))
  else Except.ok (processStockData allRows)

example : parseDoubleColumnCSV "h1,h2,h3,h4,h5\n,BrokerA,10.5,100,50".data =
    [⟨"BrokerA".data, some ⟨105, 10⟩, 100, 50⟩] := by decide

example : Frac.toRat ⟨105, 10⟩ = 21 / 2 := by norm_num [Frac.toRat]

example : processStockData [] = ⟨[], []⟩ := by decide

example : processStockData [⟨"A".data, some ⟨10, 1⟩, 100, 50⟩] =
    ⟨[⟨"A".data, some ⟨10, 1⟩, 100, 50⟩],
     [⟨"A".data, 100, 50, some ⟨1000, 1⟩, some ⟨500, 1⟩, 50, some ⟨500, 1⟩,
       some ⟨1000, 100⟩, some ⟨500, 50⟩⟩]⟩ := by decide

/-- Unparseable integer cells collapse to zero through `parseInt(x) || 0`. -/
theorem parseIntOr0_of_none {s : List Char} (h : parseIntJS s = none) : parseIntOr0 s = 0 := by
  simp [parseIntOr0, h]

/-- Every record of `dcLineRows` carries its numeric fields verbatim from
the lenient per-cell readers applied to cells of its line. -/
theorem dcLineRows_fields {line : List Char} {r : TradeRecord} (h : r ∈ dcLineRows line) :
    ∃ pc bc sc : List Char,
      r.price = parseFloatJS pc ∧ r.buyVol = parseIntOr0 bc ∧ r.sellVol = parseIntOr0 sc := by
  unfold dcLineRows at h
  rcases List.mem_append.mp h with h' | h' <;>
  · split at h'
    · dsimp only at h'
      split at h'
      · simp at h'
      · rw [List.mem_singleton] at h'
        subst h'
        exact ⟨_, _, _, rfl, rfl, rfl⟩
    · simp at h'

/-- Every record of `otcLineRows` carries its numeric fields verbatim from
the lenient per-cell readers applied to cells of its line. -/
theorem otcLineRows_fields {line : List Char} {r : TradeRecord} (h : r ∈ otcLineRows line) :
    ∃ pc bc sc : List Char,
      r.price = parseFloatJS pc ∧ r.buyVol = parseIntOr0 bc ∧ r.sellVol = parseIntOr0 sc := by
  unfold otcLineRows at h
  dsimp only at h
  split at h
  · split at h
    · simp at h
    · rw [List.mem_singleton] at h
      subst h
      exact ⟨_, _, _, rfl, rfl, rfl⟩
  · simp at h

/-- Folding one record into the broker map adds exactly that record's
contribution to any additively-tracked integer field. -/
theorem updateBrokerMap_sum (f : BrokerSummary → Int) (g : TradeRecord → Int)
    (hacc : ∀ b r, f (accumRecord b r) = f b + g r)
    (hinit : ∀ br, f (initSummary br) = 0) :
    ∀ (m : List BrokerSummary) (r : TradeRecord),
      ((updateBrokerMap r m).map f).sum = (m.map f).sum + g r := by
  intro m r
  induction m with
  | nil => simp [updateBrokerMap, hacc, hinit]
  | cons b bs ih =>
    unfold updateBrokerMap
    by_cases hb : b.broker = r.broker
    · rw [if_pos hb]
      simp only [List.map_cons, List.sum_cons, hacc]
      ring
    · rw [if_neg hb]
      simp only [List.map_cons, List.sum_cons, ih]
      ring

/-- Folding a record list into a broker map adds exactly the records'
total contribution to any additively-tracked integer field. -/
theorem foldRecords_sum (f : BrokerSummary → Int) (g : TradeRecord → Int)
    (hacc : ∀ b r, f (accumRecord b r) = f b + g r)
    (hinit : ∀ br, f (initSummary br) = 0) :
    ∀ (rows : List TradeRecord) (m : List BrokerSummary),
      ((rows.foldl (fun m r => updateBrokerMap r m) m).map f).sum =
        (m.map f).sum + (rows.map g).sum := by
  intro rows
  induction rows with
  | nil => simp
  | cons r rs ih =>
    intro m
    simp only [List.foldl_cons, List.map_cons, List.sum_cons, ih,
      updateBrokerMap_sum f g hacc hinit]
    ring

/-- C1 counterexample: on the empty record list the aggregator
`processStockData` does not fail — it returns a `ResultSet` (with empty
`details` and empty `summary`), refuting the claim that aggregating an
empty list raises `EmptyResult` rather than returning a `ResultSet`. -/
theorem processStockData_empty_returns_resultSet :
    processStockData [] = ⟨[], []⟩ := by decide

/-- C1 amended: the `EmptyResult` error (the stock-not-found message) is
raised by the caller-side guard of `handleSearch` before aggregation,
exactly when zero records were collected; any non-empty record list is
handed to `processStockData` unchanged. -/
theorem emptyResult_raised_by_caller_not_aggregator :
    (∀ code, searchAggregate code [] =
      Except.error (String.mk ("Stock ".data ++ code ++ " not found in selected range".data))) ∧
    (∀ code rows, rows ≠ [] → searchAggregate code rows = Except.ok (processStockData rows)) := by
  constructor
  · intro code
    rfl
  · intro code rows h
    unfold searchAggregate
    rw [if_neg (by simpa [List.length_eq_zero] using h)]

/-- C1 amended witness: the guard at a concrete one-record list. -/
theorem emptyResult_raised_by_caller_not_aggregator_witness :
    searchAggregate "2330".data [⟨"A".data, some ⟨10, 1⟩, 100, 50⟩] =
      Except.ok (processStockData [⟨"A".data, some ⟨10, 1⟩, 100, 50⟩]) :=
  emptyResult_raised_by_caller_not_aggregator.2 _ _ (by decide)

/-- C3: the ledger locator probes exactly the five candidate path forms
`{date}/{code}.csv`, `{date}/{code}_{date}.csv`,
`{date}/{code}_{rocDate}.csv`, `{code}_{rocDate}.csv`,
`{code}_{date}.csv` in that fixed order — its result is the first
candidate the archive contains, and it is `none` exactly when all five
miss; in particular, with both `20251111/2330.csv` and
`20251111/2330_20251111.csv` present, the former is selected. -/
theorem locateLedger_fixed_priority_first_match :
    (∀ (ex : List Char → Bool) (date code : List Char),
      locateLedger ex date code = (locateCandidates date code).find? ex) ∧
    locateLedger
      (fun p => p == "20251111/2330.csv".data || p == "20251111/2330_20251111.csv".data)
      "20251111".data "2330".data = some ("20251111/2330.csv".data) := by
  constructor
  · intro ex date code
    unfold locateLedger locateCandidates
    dsimp only
    split
    · next h1 => rw [List.find?_cons_of_pos _ h1]
    · next h1 =>
      rw [List.find?_cons_of_neg _ (by simpa using h1)]
      split
      · next h2 => rw [List.find?_cons_of_pos _ h2]
      · next h2 =>
        rw [List.find?_cons_of_neg _ (by simpa using h2)]
        split
        · next h3 => rw [List.find?_cons_of_pos _ h3]
        · next h3 =>
          rw [List.find?_cons_of_neg _ (by simpa using h3)]
          split
          · next h4 => rw [List.find?_cons_of_pos _ h4]
          · next h4 =>
            rw [List.find?_cons_of_neg _ (by simpa using h4)]
            split
            · next h5 => rw [List.find?_cons_of_pos _ h5]
            · next h5 =>
              rw [List.find?_cons_of_neg _ (by simpa using h5)]
              rfl
  · decide

/-- C8: the OTC variant on the quoted sample — header line followed by
the quoted data line — yields exactly one record with broker
`1040 臺銀證券`, price 56.5, buyVolume 1000 and sellVolume 0; quote
characters are stripped per field, and a data-shaped line placed before
the header line is not treated as data. -/
theorem parseOTCcsv_quoted_sample_yields_single_record :
    parseOTCcsv ("序號,券商,價格,買進股數,賣出股數\n".data ++
      "\"1\",\"1040 臺銀證券\",\"56.50\",\"1000\",\"0\"".data) =
      [⟨"1040 臺銀證券".data, some ⟨5650, 100⟩, 1000, 0⟩] ∧
    Frac.toRat ⟨5650, 100⟩ = 56.5 ∧
    parseOTCcsv ("9,X,9,9,9\n序號,券商,價格,買進股數,賣出股數\n".data ++
      "\"1\",\"1040 臺銀證券\",\"56.50\",\"1000\",\"0\"".data) =
      [⟨"1040 臺銀證券".data, some ⟨5650, 100⟩, 1000, 0⟩] :=
  ⟨by decide, by norm_num [Frac.toRat], by decide⟩

/-- C9 counterexample: the uploaded-file stock code is NOT the filename
with its extension stripped for every filename — `data.txt` keeps its
extension because the source only replaces the literal substring
`.csv`. -/
theorem uploadStockCode_does_not_strip_txt_extension :
    uploadStockCode "data.txt".data = "data.txt".data ∧
    "data.txt".data ≠ "data".data := by decide

/-- C9 amended: the stock code is the filename with the first occurrence
of the literal substring `.csv` removed: names not containing `.csv` are
left unchanged (no other extension is stripped), a trailing `.csv`
extension is stripped, and a mid-name `.csv` is removed even when it is
not the extension. -/
theorem uploadStockCode_removes_first_csv_occurrence :
    (∀ name, containsSeq ".csv".data name = false → uploadStockCode name = name) ∧
    uploadStockCode "2330.csv".data = "2330".data ∧
    uploadStockCode "a.csvb.csv".data = "ab.csv".data := by
  refine ⟨?_, by decide, by decide⟩
  intro name
  unfold uploadStockCode
  induction name with
  | nil => intro _; rfl
  | cons c cs ih =>
    intro h
    rw [containsSeq] at h
    rcases Bool.or_eq_false_iff.mp h with ⟨h1, h2⟩
    rw [removeFirstOcc, if_neg (by simp [h1]), ih h2]

/-- C9 amended witness: a non-`.csv` filename at a concrete input. -/
theorem uploadStockCode_removes_first_csv_occurrence_witness :
    uploadStockCode "report.txt".data = "report.txt".data :=
  uploadStockCode_removes_first_csv_occurrence.1 _ (by decide)

/-- C10: on manual upload, when the decoded text lacks the OTC marker and
the default double-column parser finds nothing, the handler retries with
the OTC variant: it returns the OTC rows when they are non-empty and
raises `No valid data found in CSV` exactly when the OTC retry is empty
too. -/
theorem handleUploadParse_otc_retry (text : List Char)
    (hm : containsSeq otcMarker text = false)
    (hdc : parseDoubleColumnCSV text = []) :
    handleUploadParse text =
      (if parseOTCcsv text = [] then Except.error "No valid data found in CSV"
       else Except.ok (parseOTCcsv text)) := by
  simp only [handleUploadParse, hm, hdc]
  cases h : parseOTCcsv text with
  | nil => simp [h]
  | cons a l => simp [h]

/-- C10 witness: a header-less single-line file misses the double-column
layout but is picked up by the OTC retry. -/
theorem handleUploadParse_otc_retry_witness :
    containsSeq otcMarker ",A,5,10,2".data = false ∧
    parseDoubleColumnCSV ",A,5,10,2".data = [] ∧
    handleUploadParse ",A,5,10,2".data =
      (if parseOTCcsv ",A,5,10,2".data = [] then Except.error "No valid data found in CSV"
       else Except.ok (parseOTCcsv ",A,5,10,2".data)) :=
  ⟨by decide, by decide, handleUploadParse_otc_retry _ (by decide) (by decide)⟩

/-- C7: both parser variants are total functions from arbitrary text to a
(possibly empty) record list — each is exactly the concatenation of the
per-line contributions of its data lines — and any line whose comma split
has fewer than 5 fields contributes no record to either variant (the
minimum-field-count check silently skips it). -/
theorem parsers_total_and_skip_short_rows :
    (∀ text, parseDoubleColumnCSV text = ((jsLines text).drop 1).flatMap dcLineRows) ∧
    (∀ text, parseOTCcsv text =
      ((jsLines text).drop (otcStartIndex (jsLines text))).flatMap otcLineRows) ∧
    (∀ line, (splitOnCharJS ',' line).length < 5 → dcLineRows line = []) ∧
    (∀ line, (splitOnCharJS ',' line).length < 5 → otcLineRows line = []) := by
  refine ⟨fun text => rfl, fun text => rfl, ?_, ?_⟩
  · intro line h
    have h5 : ¬ 5 ≤ (splitOnCharJS ',' line).length := Nat.not_le.mpr h
    have h11 : ¬ 11 ≤ (splitOnCharJS ',' line).length :=
      Nat.not_le.mpr (h.trans (by norm_num))
    simp [dcLineRows, h5, h11]
  · intro line h
    have h5 : ¬ 5 ≤ (splitOnCharJS ',' line).length := Nat.not_le.mpr h
    simp [otcLineRows, h5]

/-- C7 witness: the four-field line `x,y,z,w` is skipped by both
variants. -/
theorem parsers_total_and_skip_short_rows_witness :
    (splitOnCharJS ',' "x,y,z,w".data).length < 5 ∧
    dcLineRows "x,y,z,w".data = [] ∧ otcLineRows "x,y,z,w".data = [] :=
  ⟨by decide, parsers_total_and_skip_short_rows.2.2.1 _ (by decide),
    parsers_total_and_skip_short_rows.2.2.2 _ (by decide)⟩

/-- C2 counterexample: on the data line `,B,abc,10,20` the emitted record
keeps its broker identity but its price field becomes `NaN` (modelled
`none`), not `0` — the price cell, unlike the volume cells, has no
default-to-zero fallback in the source. -/
theorem parser_price_nan_not_zero :
    parseDoubleColumnCSV "h\n,B,abc,10,20".data = [⟨"B".data, none, 10, 20⟩] ∧
    parseFloatJS "abc".data = none ∧
    (none : Option Frac) ≠ some fracZero :=
  ⟨by decide, by decide, by decide⟩

/-- C2 amended: whenever either parser variant emits a record, its
buyVolume and sellVolume are the lenient `parseInt(x) || 0` of their
source cells — in particular 0 when the cell is unparseable, the record
being kept — while its price is the plain `parseFloat` of its cell, which
is `NaN` (not 0) when the cell is unparseable. -/
theorem parser_numeric_leniency (text : List Char) (r : TradeRecord)
    (h : r ∈ parseDoubleColumnCSV text ∨ r ∈ parseOTCcsv text) :
    ∃ pc bc sc : List Char,
      r.price = parseFloatJS pc ∧ r.buyVol = parseIntOr0 bc ∧ r.sellVol = parseIntOr0 sc ∧
      (parseIntJS bc = none → r.buyVol = 0) ∧ (parseIntJS sc = none → r.sellVol = 0) := by
  have key : ∃ pc bc sc : List Char,
      r.price = parseFloatJS pc ∧ r.buyVol = parseIntOr0 bc ∧ r.sellVol = parseIntOr0 sc := by
    rcases h with h | h
    · obtain ⟨line, -, hr⟩ := List.mem_flatMap.mp h
      exact dcLineRows_fields hr
    · obtain ⟨line, -, hr⟩ := List.mem_flatMap.mp h
      exact otcLineRows_fields hr
  obtain ⟨pc, bc, sc, hp, hbv, hsv⟩ := key
  exact ⟨pc, bc, sc, hp, hbv, hsv,
    fun hn => by rw [hbv, parseIntOr0_of_none hn],
    fun hn => by rw [hsv, parseIntOr0_of_none hn]⟩

/-- C2 amended witness: a line with every numeric cell unparseable is
still emitted, with zero volumes and `NaN` price. -/
theorem parser_numeric_leniency_witness :
    parseDoubleColumnCSV "h\n,B,abc,xx,yy".data = [⟨"B".data, none, 0, 0⟩] ∧
    (∃ pc bc sc : List Char,
      (⟨"B".data, none, 0, 0⟩ : TradeRecord).price = parseFloatJS pc ∧
      (⟨"B".data, none, 0, 0⟩ : TradeRecord).buyVol = parseIntOr0 bc ∧
      (⟨"B".data, none, 0, 0⟩ : TradeRecord).sellVol = parseIntOr0 sc ∧
      (parseIntJS bc = none → (⟨"B".data, none, 0, 0⟩ : TradeRecord).buyVol = 0) ∧
      (parseIntJS sc = none → (⟨"B".data, none, 0, 0⟩ : TradeRecord).sellVol = 0)) :=
  ⟨by decide,
    parser_numeric_leniency "h\n,B,abc,xx,yy".data ⟨"B".data, none, 0, 0⟩ (Or.inl (by decide))⟩

/-- C4: the aggregator conserves volume across the map/reduce — the sum
of buyVol over all summary entries equals the sum of buyVol over the
details (the unmodified input records), and likewise for sellVol. -/
theorem aggregation_conserves_volume (rows : List TradeRecord) :
    (((processStockData rows).summary).map (fun b => b.buyVol)).sum =
      (((processStockData rows).details).map (fun r => r.buyVol)).sum ∧
    (((processStockData rows).summary).map (fun b => b.sellVol)).sum =
      (((processStockData rows).details).map (fun r => r.sellVol)).sum := by
  have hperm : ((processStockData rows).summary).Perm (insertionOrderSummary rows) :=
    List.perm_insertionSort summaryGE _
  constructor
  · rw [((hperm.map (fun b => b.buyVol)).sum_eq :
        ((processStockData rows).summary.map (fun b => b.buyVol)).sum =
          ((insertionOrderSummary rows).map (fun b => b.buyVol)).sum)]
    have h2 : ((insertionOrderSummary rows).map (fun b => b.buyVol)) =
        ((foldRecords rows).map (fun b => b.buyVol)) := by
      rw [insertionOrderSummary, List.map_map]
      rfl
    rw [h2]
    have h3 := foldRecords_sum (fun b => b.buyVol) (fun r => r.buyVol)
      (fun b r => rfl) (fun br => rfl) rows []
    simpa [foldRecords, processStockData] using h3
  · rw [((hperm.map (fun b => b.sellVol)).sum_eq :
        ((processStockData rows).summary.map (fun b => b.sellVol)).sum =
          ((insertionOrderSummary rows).map (fun b => b.sellVol)).sum)]
    have h2 : ((insertionOrderSummary rows).map (fun b => b.sellVol)) =
        ((foldRecords rows).map (fun b => b.sellVol)) := by
      rw [insertionOrderSummary, List.map_map]
      rfl
    rw [h2]
    have h3 := foldRecords_sum (fun b => b.sellVol) (fun r => r.sellVol)
      (fun b r => rfl) (fun br => rfl) rows []
    simpa [foldRecords, processStockData] using h3

/-- C5: every summary entry of the aggregator's output satisfies the
finalization formulas exactly — netVol is buyVol minus sellVol, the
average buy price is buyAmt divided by buyVol when buyVol is positive and
exactly 0 when buyVol is 0, and symmetrically on the sell side. -/
theorem summary_derived_fields (rows : List TradeRecord) (b : BrokerSummary)
    (hb : b ∈ (processStockData rows).summary) :
    b.netVol = b.buyVol - b.sellVol ∧
    (0 < b.buyVol → b.avgBuyPrice = jsDivIntF b.buyAmt b.buyVol) ∧
    (b.buyVol = 0 → b.avgBuyPrice = some fracZero) ∧
    (0 < b.sellVol → b.avgSellPrice = jsDivIntF b.sellAmt b.sellVol) ∧
    (b.sellVol = 0 → b.avgSellPrice = some fracZero) := by
  have hb' : b ∈ insertionOrderSummary rows :=
    (List.mem_insertionSort summaryGE).mp hb
  obtain ⟨a, -, rfl⟩ := List.mem_map.mp hb'
  refine ⟨rfl, ?_, ?_, ?_, ?_⟩
  · intro h
    have ha : 0 < a.buyVol := h
    show (if 0 < a.buyVol then jsDivIntF a.buyAmt a.buyVol else some fracZero) =
      jsDivIntF a.buyAmt a.buyVol
    rw [if_pos ha]
  · intro h
    have ha : a.buyVol = 0 := h
    show (if 0 < a.buyVol then jsDivIntF a.buyAmt a.buyVol else some fracZero) = some fracZero
    rw [if_neg (by omega)]
  · intro h
    have ha : 0 < a.sellVol := h
    show (if 0 < a.sellVol then jsDivIntF a.sellAmt a.sellVol else some fracZero) =
      jsDivIntF a.sellAmt a.sellVol
    rw [if_pos ha]
  · intro h
    have ha : a.sellVol = 0 := h
    show (if 0 < a.sellVol then jsDivIntF a.sellAmt a.sellVol else some fracZero) = some fracZero
    rw [if_neg (by omega)]

/-- C5 witness: the finalization formulas at a concrete one-record
aggregation. -/
theorem summary_derived_fields_witness :
    (⟨"A".data, 100, 50, some ⟨1000, 1⟩, some ⟨500, 1⟩, 50, some ⟨500, 1⟩,
      some ⟨1000, 100⟩, some ⟨500, 50⟩⟩ : BrokerSummary).netVol =
      (⟨"A".data, 100, 50, some ⟨1000, 1⟩, some ⟨500, 1⟩, 50, some ⟨500, 1⟩,
        some ⟨1000, 100⟩, some ⟨500, 50⟩⟩ : BrokerSummary).buyVol -
      (⟨"A".data, 100, 50, some ⟨1000, 1⟩, some ⟨500, 1⟩, 50, some ⟨500, 1⟩,
        some ⟨1000, 100⟩, some ⟨500, 50⟩⟩ : BrokerSummary).sellVol ∧
    (⟨"A".data, 100, 50, some ⟨1000, 1⟩, some ⟨500, 1⟩, 50, some ⟨500, 1⟩,
      some ⟨1000, 100⟩, some ⟨500, 50⟩⟩ : BrokerSummary).avgBuyPrice =
      jsDivIntF (some ⟨1000, 1⟩) 100 :=
  ⟨(summary_derived_fields [⟨"A".data, some ⟨10, 1⟩, 100, 50⟩]
      ⟨"A".data, 100, 50, some ⟨1000, 1⟩, some ⟨500, 1⟩, 50, some ⟨500, 1⟩,
        some ⟨1000, 100⟩, some ⟨500, 50⟩⟩ (by decide)).1,
   (summary_derived_fields [⟨"A".data, some ⟨10, 1⟩, 100, 50⟩]
      ⟨"A".data, 100, 50, some ⟨1000, 1⟩, some ⟨500, 1⟩, 50, some ⟨500, 1⟩,
        some ⟨1000, 100⟩, some ⟨500, 50⟩⟩ (by decide)).2.1 (by decide)⟩

/-- C6: the aggregator's summary is sorted non-increasing by netVol on
all pairs, and entries with equal netVol keep their first-encountered
(map insertion) relative order — filtering any netVol tie class out of
the sorted summary gives the same sequence as filtering it out of the
insertion-order summary. -/
theorem summary_sorted_desc_stable_ties (rows : List TradeRecord) :
    ((processStockData rows).summary).Pairwise (fun a b => b.netVol ≤ a.netVol) ∧
    ∀ v : Int, ((processStockData rows).summary).filter (fun b => decide (b.netVol = v)) =
      (insertionOrderSummary rows).filter (fun b => decide (b.netVol = v)) := by
  constructor
  · exact List.sorted_insertionSort summaryGE (insertionOrderSummary rows)
  · intro v
    have hpw : ((insertionOrderSummary rows).filter
        (fun b => decide (b.netVol = v))).Pairwise summaryGE := by
      refine List.pairwise_of_forall_mem_list ?_
      intro a ha c hc
      have ha' : a.netVol = v := by simpa using List.of_mem_filter ha
      have hc' : c.netVol = v := by simpa using List.of_mem_filter hc
      unfold summaryGE
      omega
    have hsub : List.Sublist
        ((insertionOrderSummary rows).filter (fun b => decide (b.netVol = v)))
        (insertionOrderSummary rows) := List.filter_sublist _
    have h1 := List.sublist_insertionSort hpw hsub
    have h2 := h1.filter (fun b => decide (b.netVol = v))
    have h3 : ((insertionOrderSummary rows).filter
          (fun b => decide (b.netVol = v))).filter (fun b => decide (b.netVol = v)) =
        (insertionOrderSummary rows).filter (fun b => decide (b.netVol = v)) :=
      List.filter_eq_self.mpr (fun a ha => (List.mem_filter.mp ha).2)
    rw [h3] at h2
    have hperm : (((List.insertionSort summaryGE (insertionOrderSummary rows))).filter
          (fun b => decide (b.netVol = v))).Perm
        ((insertionOrderSummary rows).filter (fun b => decide (b.netVol = v))) :=
      (List.perm_insertionSort summaryGE (insertionOrderSummary rows)).filter _
    exact (h2.eq_of_length hperm.length_eq.symm).symm
